import Mathlib

/-
Verification of the PIMS image pyramid addressing and region-extraction
subsystem, together with a few filesystem/metadata helpers.

Pure functions from the repository are embedded as Lean definitions.
Python floats are modelled by rationals (all values of interest are exact),
machine integers by Int/Nat, fallible code by Except, and the mutable
colormap registry by explicit state passing.  Functions whose source file
is not part of the snapshot (the `image_parameter` and `pyramid` modules,
of which only the test suite is available) are modelled from the
specification and cross-checked against the test suite.
-/

namespace Pims

/-- Error kinds surfaced by the parameter-validation core. -/
inductive PimsError where
  | badRequest
  | outOfBounds
  | tooLargeOutput
  | colormapNotFound
deriving DecidableEq, Repr

/-- Floor of a rational. -/
def ratFloor (q : ℚ) : ℤ := ⌊q⌋

/-- Model of Python round(): round half to even (banker's rounding). -/
def pyRound (q : ℚ) : ℤ :=
  let f : ℤ := ratFloor q
  let r : ℚ := q - (f : ℚ)
  if r < 1/2 then f
  else if 1/2 < r then f + 1
  else if f % 2 = 0 then f else f + 1

/-- Image dimensions as exposed by the duck-typed image argument of
`get_thumb_output_dimensions` (the tests use a fake with `width`/`height`). -/
structure ImageDim where
  width : ℚ
  height : ℚ
deriving DecidableEq, Repr

/-- Modelled from the spec: `get_rationed_resizing(resized, length, other_length)`
from the missing `pims.api.utils.image_parameter` module.  An input ≤ 1 is a
fraction of both dimensions; otherwise it is an absolute target for the first
dimension, the other dimension being derived by the same scale factor with
rounding to nearest integer pixel. -/
def get_rationed_resizing (resized length other_length : ℚ) : ℚ × ℚ :=
  let ratio : ℚ := if resized ≤ 1 then resized else resized / length
  let resized' : ℚ := if resized ≤ 1 then ((pyRound (resized * length) : ℤ) : ℚ) else resized
  (resized', ((pyRound (ratio * other_length) : ℤ) : ℚ))

/-- Modelled from the spec: `get_thumb_output_dimensions(image, width, height, length)`
from the missing `pims.api.utils.image_parameter` module.  At least one of the
three targets must be given, else BadRequest.  The branch order (height first,
then width, then length applied to the longer side) is fixed by the test suite:
`width=20, length=3, height=500` on a 1000x2000 image must yield `(250, 500)`. -/
def get_thumb_output_dimensions (img : ImageDim) (width height length : Option ℚ) :
    Except PimsError (ℚ × ℚ) :=
  match height with
  | some h =>
    let p := get_rationed_resizing h img.height img.width
    .ok (p.2, p.1)
  | none =>
    match width with
    | some w =>
      let p := get_rationed_resizing w img.width img.height
      .ok (p.1, p.2)
    | none =>
      match length with
      | some l =>
        if img.height < img.width then
          let p := get_rationed_resizing l img.width img.height
          .ok (p.1, p.2)
        else
          let p := get_rationed_resizing l img.height img.width
          .ok (p.2, p.1)
      | none => .error .badRequest

/-- Safety policy for output dimensions. -/
inductive SafeMode where
  | UNSAFE
  | SAFE_RESIZE
  | SAFE_REJECT
deriving DecidableEq, Repr

/-- Modelled from the spec: `safeguard_output_dimensions(mode, max_size, width, height)`
from the missing `pims.api.utils.image_parameter` module.  UNSAFE keeps the
dimensions; SAFE_RESIZE uniformly downscales so the longer side equals
`max_size` (rounding down) when the longer side exceeds it; SAFE_REJECT fails
with TooLargeOutput in that case. -/
def safeguard_output_dimensions (mode : SafeMode) (max_size width height : ℕ) :
    Except PimsError (ℕ × ℕ) :=
  match mode with
  | .UNSAFE => .ok (width, height)
  | .SAFE_RESIZE =>
    if max_size < max width height then
      if height ≤ width then .ok (max_size, height * max_size / width)
      else .ok (width * max_size / height, max_size)
    else .ok (width, height)
  | .SAFE_REJECT =>
    if max_size < max width height then .error .tooLargeOutput
    else .ok (width, height)

/-- Tier of an image pyramid: one resolution level. -/
structure Tier where
  index : ℕ
  width : ℚ
  height : ℚ
  tile_size : ℕ
  downsample : ℚ
deriving DecidableEq, Repr

/-- Pyramid: ordered sequence of tiers, level 0 first. -/
structure Pyramid where
  tiers : List Tier
deriving DecidableEq, Repr

/-- Modelled from the spec: `Pyramid.insert_tier` from the missing
`pims.formats.utils.pyramid` module.  Appends a tier with the next index;
the downsample is the ratio of the first tier's width to the new width. -/
def Pyramid.insert_tier (p : Pyramid) (width height : ℚ) (tile_size : ℕ) : Pyramid :=
  let ds : ℚ := match p.tiers with
    | [] => 1
    | t0 :: _ => t0.width / width
  ⟨p.tiers ++ [⟨p.tiers.length, width, height, tile_size, ds⟩]⟩

/-- Tier addressing scheme: resolution level (0 = sharpest) or zoom
(0 = most zoomed out). -/
inductive TierIndexType where
  | LEVEL
  | ZOOM
deriving DecidableEq, Repr

/-- Modelled from the spec: `Pyramid.tier_at_level`, returning `none` outside
`[0, n_tiers)` where the source raises OutOfBounds. -/
def Pyramid.tier_at_level (p : Pyramid) (i : ℕ) : Option Tier := p.tiers.get? i

/-- Modelled from the spec: `Pyramid.tier_at_zoom`; `zoom = n_tiers - 1 - level`. -/
def Pyramid.tier_at_zoom (p : Pyramid) (i : ℕ) : Option Tier :=
  if i < p.tiers.length then p.tiers.get? (p.tiers.length - 1 - i) else none

/-- Tier selected by a zoom-or-level index. -/
def Pyramid.tierOf (p : Pyramid) (idx : ℕ) : TierIndexType → Option Tier
  | .LEVEL => p.tier_at_level idx
  | .ZOOM => p.tier_at_zoom idx

/-- Best tier whose downsample does not exceed the target: the scan keeps the
candidate with the largest downsample among those ≤ target. -/
def bestTierLE (d : ℚ) : List Tier → Option Tier
  | [] => none
  | t :: ts =>
    match bestTierLE d ts with
    | none => if t.downsample ≤ d then some t else none
    | some b =>
      if t.downsample ≤ d then
        if b.downsample ≤ t.downsample then some t else some b
      else some b

/-- Tier with the largest downsample of the list. -/
def coarsestTier : List Tier → Option Tier
  | [] => none
  | t :: ts =>
    match coarsestTier ts with
    | none => some t
    | some b => if b.downsample ≤ t.downsample then some t else some b

/-- Modelled from the spec: `Pyramid.most_appropriate_tier_for_downsample` from
the missing `pims.formats.utils.pyramid` module.  Returns the tier whose
downsample is the largest value ≤ target; if none qualifies, the coarsest tier. -/
def Pyramid.most_appropriate_tier_for_downsample (p : Pyramid) (d : ℚ) : Option Tier :=
  match bestTierLE d p.tiers with
  | some t => some t
  | none => coarsestTier p.tiers

/-- Region: rectangle at a tier's pixel grid, tagged with that tier's
downsample factor relative to level 0. -/
structure Region where
  top : ℚ
  left : ℚ
  width : ℚ
  height : ℚ
  downsample : ℚ
deriving DecidableEq, Repr

/-- Coordinate disambiguation used by `parse_region`: a value ≤ 1 is a
fraction of the relevant tier dimension, otherwise an absolute pixel value. -/
def resolveCoord (v dim : ℚ) : ℚ := if v ≤ 1 then v * dim else v

/-- Modelled from the spec: `parse_region` from the missing
`pims.api.utils.image_parameter` module.  Resolves the target tier from the
zoom-or-level index, converts fractional inputs against that tier's
dimensions, then either clips to tier bounds (`silent_oob`) or rejects
rectangles exceeding them; the Region is expressed at the selected tier's
pixel grid and carries `downsample = tier.downsample`, as fixed by the test
suite (`Region(100, 50, 128, 128, downsample=2)` for absolute inputs
against the downsample-2 tier). -/
def parse_region (p : Pyramid) (top left width height : ℚ) (tier_idx : ℕ)
    (tier_type : TierIndexType) (silent_oob : Bool) : Except PimsError Region :=
  match p.tierOf tier_idx tier_type with
  | none => .error .badRequest
  | some tier =>
    let rtop := resolveCoord top tier.height
    let rleft := resolveCoord left tier.width
    let rwidth := resolveCoord width tier.width
    let rheight := resolveCoord height tier.height
    if silent_oob then
      let ctop := max 0 rtop
      let cleft := max 0 rleft
      .ok ⟨ctop, cleft, min rwidth (tier.width - cleft), min rheight (tier.height - ctop),
           tier.downsample⟩
    else
      if 0 ≤ rtop ∧ 0 ≤ rleft ∧ rleft + rwidth ≤ tier.width ∧ rtop + rheight ≤ tier.height then
        .ok ⟨rtop, rleft, rwidth, rheight, tier.downsample⟩
      else .error .badRequest

/-- Duck-typed image as used by `parse_intensity_bounds`: bit depth, channel
count and per-channel observed minimum/maximum statistics. -/
structure PlaneImage where
  significant_bits : ℕ
  n_channels : ℕ
  stats_min : ℕ → ℤ
  stats_max : ℕ → ℤ

/-- Requested intensity bound entry: a symbolic policy or a literal number. -/
inductive IntensityEntry where
  | AUTO_IMAGE
  | STRETCH_IMAGE
  | value (v : ℤ)
deriving DecidableEq, Repr

/-- Clamp a literal intensity into the bit-depth range. -/
def clampIntensity (bits : ℕ) (v : ℤ) : ℤ := max 0 (min v (2 ^ bits - 1))

/-- Entry applying to channel position `idx`: ragged lists are padded by
repeating their last entry; an empty list means the bound was omitted. -/
def entryAt (l : List IntensityEntry) (idx : ℕ) : Option IntensityEntry :=
  match l.get? idx with
  | some e => some e
  | none => l.getLast?

/-- Resolution of one minimum-intensity entry for channel `c`.  AUTO_IMAGE uses
the full bit-depth range on images of at most 8 significant bits and degrades
to the observed channel minimum on deeper images, as fixed by the test suite
(16-bit AUTO_IMAGE yields the observed statistics). -/
def resolveMinEntry (img : PlaneImage) (c : ℕ) : Option IntensityEntry → ℤ
  | none => 0
  | some .AUTO_IMAGE => if img.significant_bits ≤ 8 then 0 else img.stats_min c
  | some .STRETCH_IMAGE => img.stats_min c
  | some (.value v) => clampIntensity img.significant_bits v

/-- Resolution of one maximum-intensity entry for channel `c`. -/
def resolveMaxEntry (img : PlaneImage) (c : ℕ) : Option IntensityEntry → ℤ
  | none => 2 ^ img.significant_bits - 1
  | some .AUTO_IMAGE =>
    if img.significant_bits ≤ 8 then 2 ^ img.significant_bits - 1 else img.stats_max c
  | some .STRETCH_IMAGE => img.stats_max c
  | some (.value v) => clampIntensity img.significant_bits v

/-- Modelled from the spec: `parse_intensity_bounds` from the missing
`pims.api.utils.image_parameter` module.  Per requested channel, resolves a
(min, max) display bound from the possibly ragged per-channel entry lists. -/
def parse_intensity_bounds (img : PlaneImage) (channels : List ℕ)
    (z_slices timepoints : List ℕ) (min_intensities max_intensities : List IntensityEntry) :
    List ℤ × List ℤ :=
  let _ := z_slices
  let _ := timepoints
  (channels.enum.map fun ic => resolveMinEntry img ic.2 (entryAt min_intensities ic.1),
   channels.enum.map fun ic => resolveMaxEntry img ic.2 (entryAt max_intensities ic.1))

/-- Entry of a plane-selection list: an integer index or a slice string. -/
inductive PlaneSelector where
  | int (i : ℤ)
  | str (s : String)
deriving DecidableEq, Repr

/-- Split a character list at every occurrence of the separator, keeping
empty pieces, as Python str.split with an explicit separator does. -/
def splitCharAux (sep : Char) (cur : List Char) : List Char → List (List Char)
  | [] => [cur.reverse]
  | c :: cs =>
    if c = sep then cur.reverse :: splitCharAux sep [] cs
    else splitCharAux sep (c :: cur) cs

/-- Decimal value of a nonempty digit sequence. -/
def digitsToNatAux (acc : ℕ) : List Char → Option ℕ
  | [] => some acc
  | c :: cs =>
    if '0' ≤ c ∧ c ≤ '9' then digitsToNatAux (10 * acc + (c.toNat - '0'.toNat)) cs
    else none

/-- Parse one slice bound: empty means absent, otherwise a decimal natural. -/
def parseBound (cs : List Char) : Option (Option ℕ) :=
  match cs with
  | [] => some none
  | _ =>
    match digitsToNatAux 0 cs with
    | some n => some (some n)
    | none => none

/-- Parse a slice string of the forms a:b, a:, :b or : into its bounds. -/
def parseSliceStr (s : String) : Option (Option ℕ × Option ℕ) :=
  match splitCharAux ':' [] s.data with
  | [a, b] =>
    match parseBound a, parseBound b with
    | some a', some b' => some (a', b')
    | _, _ => none
  | _ => none

/-- Expand slice bounds against the axis length `n`. -/
def expandSlice (n : ℕ) (bounds : Option ℕ × Option ℕ) : List ℤ :=
  let a := bounds.1.getD 0
  let b := min (bounds.2.getD n) n
  (List.range (b - a)).map fun k => ((a + k : ℕ) : ℤ)

/-- Planes contributed by one entry: integers stand for themselves and
well-formed slice strings expand against the axis length. -/
def expandEntry (n : ℕ) : PlaneSelector → List ℤ
  | .int i => [i]
  | .str s =>
    match parseSliceStr s with
    | some bounds => expandSlice n bounds
    | none => []

/-- Accumulation pass of `parse_planes`: expands entries in order and fails
with BadRequest at a malformed slice string. -/
def collectPlanes (n : ℕ) : List PlaneSelector → Except PimsError (List ℤ)
  | [] => .ok []
  | .int i :: rest =>
    match collectPlanes n rest with
    | .ok xs => .ok (i :: xs)
    | .error e => .error e
  | .str s :: rest =>
    match parseSliceStr s with
    | none => .error .badRequest
    | some bounds =>
      match collectPlanes n rest with
      | .ok xs => .ok (expandSlice n bounds ++ xs)
      | .error e => .error e

/-- Modelled from the spec: `parse_planes` from the missing
`pims.api.utils.image_parameter` module.  Expands each entry against the
axis length `n`, silently drops indices outside `[0, n)`, and falls back to
the caller-supplied default when the resulting list is empty (the source
defaults the fallback to `[0]`). -/
def parse_planes (planes : List PlaneSelector) (n : ℕ) (dflt : List ℤ) :
    Except PimsError (List ℤ) :=
  match collectPlanes n planes with
  | .error e => .error e
  | .ok xs =>
    let kept := xs.filter fun i => decide (0 ≤ i ∧ i < (n : ℤ))
    if kept = [] then .ok dflt else .ok kept

/-- Colormap carried by the registry: its canonical identifier and whether it
is the inverted variant. -/
structure Colormap where
  identifier : String
  inverted : Bool
deriving DecidableEq, Repr

/-- Colormap registry: association list from canonical key to colormap. -/
abbrev ColormapRegistry := List (String × Colormap)

/-- First-match lookup in the registry. -/
def regLookup (key : String) : ColormapRegistry → Option Colormap
  | [] => none
  | e :: rest => if e.1 = key then some e.2 else regLookup key rest

/-- Colormap identifier argument: symbolic or a literal string. -/
inductive ColormapId where
  | NONE
  | DEFAULT
  | DEFAULT_INVERTED
  | named (s : String)
deriving DecidableEq, Repr

/-- Default color argument of `parse_colormap_id` (the source passes a
`Color` whose lowercase name selects the default colormap). -/
structure Color where
  name : String
deriving DecidableEq, Repr

/-- Uppercase an ASCII letter. -/
def upperChar (c : Char) : Char :=
  if 'a' ≤ c ∧ c ≤ 'z' then Char.ofNat (c.toNat - 32) else c

/-- Model of Python str.upper() on ASCII identifiers. -/
def pyUpper (s : String) : String := ⟨s.data.map upperChar⟩

/-- Model of Python str.startswith for a prefix given as a string. -/
def strStartsWith (s pre : String) : Bool := pre.data.isPrefixOf s.data

/-- Value of one hexadecimal digit. -/
def hexDigitVal (c : Char) : Option ℕ :=
  if '0' ≤ c ∧ c ≤ '9' then some (c.toNat - '0'.toNat)
  else if 'a' ≤ c ∧ c ≤ 'f' then some (c.toNat - 'a'.toNat + 10)
  else if 'A' ≤ c ∧ c ≤ 'F' then some (c.toNat - 'A'.toNat + 10)
  else none

/-- Value of a two-digit hexadecimal channel. -/
def hexPair (c1 c2 : Char) : Option ℕ :=
  match hexDigitVal c1, hexDigitVal c2 with
  | some h, some l => some (16 * h + l)
  | _, _ => none

/-- Parse a literal hex color of #RRGGBB, #RGB, 0xRRGGBB or 0xRGB form into
its RGB channels; the short form duplicates each digit. -/
def parseHexColor (s : String) : Option (ℕ × ℕ × ℕ) :=
  let digits : Option (List Char) :=
    match s.data with
    | '#' :: rest => some rest
    | '0' :: 'x' :: rest => some rest
    | '0' :: 'X' :: rest => some rest
    | _ => none
  match digits with
  | none => none
  | some ds =>
    match ds with
    | [r1, r2, g1, g2, b1, b2] =>
      match hexPair r1 r2, hexPair g1 g2, hexPair b1 b2 with
      | some r, some g, some b => some (r, g, b)
      | _, _, _ => none
    | [r1, g1, b1] =>
      match hexPair r1 r1, hexPair g1 g1, hexPair b1 b1 with
      | some r, some g, some b => some (r, g, b)
      | _, _, _ => none
    | _ => none

/-- Uppercase hexadecimal digit. -/
def toHexDigit (n : ℕ) : Char :=
  if n < 10 then Char.ofNat ('0'.toNat + n) else Char.ofNat ('A'.toNat + n - 10)

/-- Canonical uppercase hex key of an RGB triple. -/
def hexKey (rgb : ℕ × ℕ × ℕ) : String :=
  ⟨['#', toHexDigit (rgb.1 / 16), toHexDigit (rgb.1 % 16),
    toHexDigit (rgb.2.1 / 16), toHexDigit (rgb.2.1 % 16),
    toHexDigit (rgb.2.2 / 16), toHexDigit (rgb.2.2 % 16)]⟩

/-- Named colors recognized when canonicalizing a literal hex color (the
source resolves hex values through its `Color` class, which names them when
they match a known color). -/
def colorNames : List ((ℕ × ℕ × ℕ) × String) :=
  [((255, 0, 0), "RED"), ((0, 255, 0), "LIME"), ((0, 0, 255), "BLUE"),
   ((255, 255, 255), "WHITE"), ((0, 0, 0), "BLACK")]

/-- Canonical registry key of an RGB triple: the color name when known,
otherwise the uppercase hex key. -/
def canonicalColorKey (rgb : ℕ × ℕ × ℕ) : String :=
  match colorNames.lookup rgb with
  | some nm => nm
  | none => hexKey rgb

/-- Inversion flag of a literal colormap identifier. -/
def isInvertedId (s : String) : Bool := strStartsWith s "!"

/-- Literal colormap identifier with the inversion marker removed. -/
def hexBody (s : String) : String := if isInvertedId s then s.drop 1 else s

/-- Registry key tried first for a literal identifier: its uppercase form
with the inversion marker re-attached. -/
def literalKey (s : String) : String :=
  (if isInvertedId s then "!" else "") ++ pyUpper (hexBody s)

/-- Canonical registry key of a literal hex identifier. -/
def canonKey (s : String) (rgb : ℕ × ℕ × ℕ) : String :=
  (if isInvertedId s then "!" else "") ++ canonicalColorKey rgb

/-- Modelled from the spec: `parse_colormap_id(id, registry, default_color)`
from the missing `pims.api.utils.image_parameter` module.  NONE yields no
colormap; DEFAULT and DEFAULT_INVERTED select the colormap named after the
default color; a literal identifier is looked up case-insensitively, then
parsed as a hex color whose canonical key is looked up and, when absent,
registered; anything else fails with ColormapNotFound.  The registry is
threaded explicitly: the result carries the possibly extended registry. -/
def parse_colormap_id (id : ColormapId) (reg : ColormapRegistry) (default_color : Color) :
    Except PimsError (Option Colormap × ColormapRegistry) :=
  match id with
  | .NONE => .ok (none, reg)
  | .DEFAULT =>
    match regLookup (pyUpper default_color.name) reg with
    | some cm => .ok (some cm, reg)
    | none => .error .colormapNotFound
  | .DEFAULT_INVERTED =>
    match regLookup ("!" ++ pyUpper default_color.name) reg with
    | some cm => .ok (some cm, reg)
    | none => .error .colormapNotFound
  | .named s =>
    match regLookup (literalKey s) reg with
    | some cm => .ok (some cm, reg)
    | none =>
      match parseHexColor (hexBody s) with
      | none => .error .colormapNotFound
      | some rgb =>
        match regLookup (canonKey s rgb) reg with
        | some cm => .ok (some cm, reg)
        | none =>
          let cm : Colormap := ⟨canonKey s rgb, isInvertedId s⟩
          .ok (some cm, reg ++ [(canonKey s rgb, cm)])

/-- Parsed POSIX pure path: the root string (empty for relative paths) and
the retained components. -/
structure PyPath where
  root : List Char
  parts : List (List Char)
deriving DecidableEq, Repr

/-- Root of a POSIX path string: pathlib keeps a double slash as its own
root, collapses three or more, and uses a single slash otherwise. -/
def posixRoot (s : List Char) : List Char :=
  match s with
  | [] => []
  | [c1] => if c1 = '/' then ['/'] else []
  | [c1, c2] =>
    if c1 = '/' then (if c2 = '/' then ['/', '/'] else ['/']) else []
  | c1 :: c2 :: c3 :: _ =>
    if c1 = '/' then
      (if c2 = '/' then (if c3 = '/' then ['/'] else ['/', '/']) else ['/'])
    else []

/-- Components of a POSIX path string: pieces between slashes, dropping empty
pieces and single dots, as pathlib parsing does. -/
def pathComponents (s : List Char) : List (List Char) :=
  (splitCharAux '/' [] s).filter fun c => decide (c ≠ [] ∧ c ≠ ['.'])

/-- Parse a string into a pure POSIX path. -/
def parsePyPath (s : List Char) : PyPath := ⟨posixRoot s, pathComponents s⟩

/-- Combine two pure paths as pathlib Path(a, b) does: an absolute second
argument discards the first, otherwise components are appended. -/
def joinPyPath (a b : PyPath) : PyPath :=
  if b.root ≠ [] then b else ⟨a.root, a.parts ++ b.parts⟩

/-- Join components with single slashes. -/
def intercalateSlash : List (List Char) → List Char
  | [] => []
  | [c] => c
  | c :: cs => c ++ '/' :: intercalateSlash cs

/-- Render a pure POSIX path as str() does: root then slash-joined
components, a bare root for no components, and a dot for the empty
relative path. -/
def showPyPath (p : PyPath) : List Char :=
  match p.parts with
  | [] => if p.root = [] then ['.'] else p.root
  | _ => p.root ++ intercalateSlash p.parts

/-- Scan of `removeOccurrences` for the nonempty pattern `p0 :: prest`.  A
positive counter drops that many characters (the tail of a matched
occurrence); at zero the scan tests for a match at the current position. -/
def removeOccGo (p0 : Char) (prest : List Char) : ℕ → List Char → List Char
  | _, [] => []
  | 0, c :: cs =>
    if (p0 :: prest).isPrefixOf (c :: cs) then removeOccGo p0 prest prest.length cs
    else c :: removeOccGo p0 prest 0 cs
  | k + 1, _ :: cs => removeOccGo p0 prest k cs

/-- Model of Python str.replace(pat, "") on character lists: scans left to
right and removes every non-overlapping occurrence of the pattern; for the
empty pattern Python returns the string unchanged. -/
def removeOccurrences (pat s : List Char) : List Char :=
  match pat with
  | [] => s
  | p0 :: prest => removeOccGo p0 prest 0 s

/-- Leftmost-occurrence test for a character pattern. -/
def containsSeq (pat : List Char) : List Char → Bool
  | [] => decide (pat = [])
  | c :: cs => pat.isPrefixOf (c :: cs) || containsSeq pat cs

/-- Embedding of `filepath2path` (src/pims/api/utils/parameter.py): builds
pathlib Path(config.root, filepath) and renders it. -/
def filepath2pathChars (filepath root : List Char) : List Char :=
  showPyPath (joinPyPath (parsePyPath root) (parsePyPath filepath))

/-- String-level wrapper of `filepath2pathChars`. -/
def filepath2path (filepath root : String) : String :=
  ⟨filepath2pathChars filepath.data root.data⟩

/-- Embedding of `path2filepath` (src/pims/api/utils/parameter.py): appends a
slash to a nonempty root lacking one, then removes every occurrence of that
root from the rendered path. -/
def path2filepathChars (path root : List Char) : List Char :=
  let root' := if root ≠ [] ∧ root.getLast? ≠ some '/' then root ++ ['/'] else root
  removeOccurrences root' path

/-- String-level wrapper of `path2filepathChars`. -/
def path2filepath (path root : String) : String :=
  ⟨path2filepathChars path.data root.data⟩

/-- Python value decoded from the exiftool JSON output (numbers are modelled
as integers; the claims do not depend on their precise representation). -/
inductive PyJson where
  | null
  | bool (b : Bool)
  | num (n : ℤ)
  | str (s : String)
  | arr (xs : List PyJson)
  | obj (fields : List (String × PyJson))

/-- Quote character used by Python repr of strings. -/
def pyQuote : String := String.singleton (Char.ofNat 39)

mutual

/-- Model of Python repr() on decoded JSON values. -/
def pyRepr : PyJson → String
  | .null => "None"
  | .bool true => "True"
  | .bool false => "False"
  | .num n => toString n
  | .str s => pyQuote ++ s ++ pyQuote
  | .arr xs => "[" ++ String.intercalate ", " (pyReprList xs) ++ "]"
  | .obj fs => "\x7b" ++ String.intercalate ", " (pyReprFields fs) ++ "\x7d"

/-- Helper of `pyRepr` for array elements. -/
def pyReprList : List PyJson → List String
  | [] => []
  | x :: xs => pyRepr x :: pyReprList xs

/-- Helper of `pyRepr` for object fields. -/
def pyReprFields : List (String × PyJson) → List String
  | [] => []
  | kv :: rest => (pyQuote ++ kv.1 ++ pyQuote ++ ": " ++ pyRepr kv.2) :: pyReprFields rest

end

/-- Model of Python str() on decoded JSON values: a string renders as itself,
anything else as its repr. -/
def pyToString : PyJson → String
  | .str s => s
  | v => pyRepr v

/-- Model of Python str.strip(): drop leading and trailing whitespace. -/
def pyStrip (s : String) : String :=
  ⟨((s.data.dropWhile Char.isWhitespace).reverse.dropWhile Char.isWhitespace).reverse⟩

/-- Replace every colon by a dot, the key normalization of
`read_raw_metadata`. -/
def replaceColonDot (s : List Char) : List Char :=
  s.map fun c => if c = ':' then '.' else c

/-- Marker excluding binary-blob values from the metadata dict. -/
def bytes_info : String := "use -b option to extract)"

/-- Filter of the metadata comprehension: keeps an entry whose key does not
start with ExifTool or File, is not SourceFile, and whose value does not
carry the binary-blob marker. -/
def exifKeep (kv : String × PyJson) : Bool :=
  (!strStartsWith kv.1 "ExifTool") && (!strStartsWith kv.1 "File") && (kv.1 != "SourceFile")
    && (!containsSeq bytes_info.data (pyToString kv.2).data)

/-- Transformation of the metadata comprehension: colons in the key become
dots and string values are stripped. -/
def exifTransform (kv : String × PyJson) : String × PyJson :=
  (⟨replaceColonDot kv.1.data⟩,
   match kv.2 with
   | .str s => PyJson.str (pyStrip s)
   | v => v)

/-- First element of a nonempty JSON array, any other value unchanged, as in
the metadata-unwrapping step of `read_raw_metadata`. -/
def unwrapFirst : PyJson → PyJson
  | .arr (x :: _) => x
  | v => v

/-- Fields of a JSON object, nothing for any other value. -/
def objFields : PyJson → Option (List (String × PyJson))
  | .obj fields => some fields
  | _ => none

/-- Embedding of `read_raw_metadata` (src/pims/formats/utils/exiftool.py)
after the exiftool subprocess: the call's outcome is passed in as the return
code and the decoded JSON of its stdout.  The dict is modelled as the
association list of its entries in comprehension order. -/
def read_raw_metadata (returncode : ℤ) (stdout : PyJson) : List (String × PyJson) :=
  if returncode = 0 then
    match objFields (unwrapFirst stdout) with
    | some fields => (fields.filter exifKeep).map exifTransform
    | none => []
  else []

/-- Row of the plugin list as far as `generate_checker_resolution_file` reads
it: the name column and the resolution-order column, both strings. -/
structure PluginRow where
  name : String
  resolution_order : String
deriving DecidableEq, Repr

/-- Test of the regular expression (-?[0-9]+)? anchored on both sides: the
empty string or an optionally minus-prefixed digit string. -/
def resolutionOrderOk (s : List Char) : Bool :=
  match s with
  | [] => true
  | '-' :: rest => decide (rest ≠ []) && rest.all fun c => decide ('0' ≤ c ∧ c ≤ '9')
  | _ => s.all fun c => decide ('0' ≤ c ∧ c ≤ '9')

/-- Decimal value of a digit list, for digits already validated. -/
def digitsVal (cs : List Char) : ℕ :=
  cs.foldl (fun acc c => 10 * acc + (c.toNat - '0'.toNat)) 0

/-- Model of Python int() on a validated optionally signed digit string. -/
def pyInt (s : List Char) : ℤ :=
  match s with
  | '-' :: rest => -(digitsVal rest : ℤ)
  | _ => (digitsVal s : ℤ)

/-- Embedding of `generate_checker_resolution_file` (src/docker/plugins.py):
processes plugins in order, strips both columns, validates the resolution
order against the integer-or-empty pattern and raises ValueError otherwise;
the rows written to the CSV are returned as (name, resolution order) pairs,
an empty resolution order becoming 0. -/
def generate_checker_resolution_file : List PluginRow → Except String (List (String × ℤ))
  | [] => .ok []
  | row :: rest =>
    let name := pyStrip row.name
    let ro := pyStrip row.resolution_order
    if resolutionOrderOk ro.data then
      match generate_checker_resolution_file rest with
      | .ok rows => .ok ((name, if ro.data = [] then 0 else pyInt ro.data) :: rows)
      | .error e => .error e
    else
      .error ("Review resolution order " ++ ro ++ " for plugin " ++ name
        ++ ": the resolution order must be an integer or empty string")

/-- Three-tier pyramid of a 1000x2000 image, as built by the test suite's
FakeImagePyramid(1000, 2000, 3). -/
def pyramid3 : Pyramid :=
  (((Pyramid.mk []).insert_tier 1000 2000 256).insert_tier 500 1000 256).insert_tier 250 500 256

/-- Sixteen-bit single-channel image whose observed channel statistics are
(c, c + 10), as in the test suite's FakeImage(16, 1). -/
def fakeImage16 : PlaneImage := ⟨16, 1, fun c => (c : ℤ), fun c => (c : ℤ) + 10⟩

/-- Small registry of named colormaps and their inverted variants, standing
for the prepopulated ALL_COLORMAPS registry. -/
def baseColormaps : ColormapRegistry :=
  [("RED", ⟨"RED", false⟩), ("!RED", ⟨"!RED", true⟩),
   ("LIME", ⟨"LIME", false⟩), ("!LIME", ⟨"!LIME", true⟩),
   ("BLUE", ⟨"BLUE", false⟩), ("!BLUE", ⟨"!BLUE", true⟩),
   ("JET", ⟨"JET", false⟩), ("!JET", ⟨"!JET", true⟩)]

/-- C1 counterexample: an explicit height overrides an explicit width (the
claimed precedence of width over height fails): on a 1000x2000 image,
width=100 alone gives (100, 200), yet adding height=500 gives (250, 500),
the height-driven result. -/
theorem get_thumb_width_not_over_height :
    get_thumb_output_dimensions ⟨1000, 2000⟩ (some 100) (some 500) none = .ok (250, 500) ∧
    get_thumb_output_dimensions ⟨1000, 2000⟩ (some 100) none none = .ok (100, 200) ∧
    ((250 : ℚ), (500 : ℚ)) ≠ ((100 : ℚ), (200 : ℚ)) := by
  refine ⟨?_, ?_, by norm_num⟩ <;>
    norm_num [get_thumb_output_dimensions, get_rationed_resizing, pyRound, ratFloor]

/-- C1 (amended): for every image with positive width and height,
`get_thumb_output_dimensions` resolves with precedence height over width
over length: an explicit height makes width and length irrelevant, an
explicit width makes length irrelevant, the remaining dimension being
recomputed from the aspect ratio with rounding; on a 1000x2000 image with
width=20, length=3, height=500 it returns (250, 500). -/
theorem get_thumb_output_dimensions_precedence (img : ImageDim) (w l : Option ℚ) (hv wv : ℚ)
    (hwpos : 0 < img.width) (hhpos : 0 < img.height) :
    get_thumb_output_dimensions img w (some hv) l
      = get_thumb_output_dimensions img none (some hv) none ∧
    get_thumb_output_dimensions img (some wv) none l
      = get_thumb_output_dimensions img (some wv) none none ∧
    (1 < hv → get_thumb_output_dimensions img none (some hv) none
      = .ok (((pyRound (hv / img.height * img.width) : ℤ) : ℚ), hv)) ∧
    (1 < wv → get_thumb_output_dimensions img (some wv) none none
      = .ok (wv, ((pyRound (wv / img.width * img.height) : ℤ) : ℚ))) ∧
    get_thumb_output_dimensions ⟨1000, 2000⟩ (some 20) (some 500) (some 3) = .ok (250, 500) := by
  refine ⟨rfl, by cases l <;> rfl, fun hgt => ?_, fun hgt => ?_, ?_⟩
  · simp [get_thumb_output_dimensions, get_rationed_resizing, not_le.mpr hgt]
  · simp [get_thumb_output_dimensions, get_rationed_resizing, not_le.mpr hgt]
  · norm_num [get_thumb_output_dimensions, get_rationed_resizing, pyRound, ratFloor]

/-- C1 witness: the precedence theorem applied to the 1000x2000 image of the
test suite with width=20, height=500, length=3. -/
theorem get_thumb_output_dimensions_precedence_w :
    (0 : ℚ) < 1000 ∧ (0 : ℚ) < 2000 ∧
    (get_thumb_output_dimensions ⟨1000, 2000⟩ (some 20) (some 500) (some 3)
        = get_thumb_output_dimensions ⟨1000, 2000⟩ none (some 500) none ∧
      get_thumb_output_dimensions ⟨1000, 2000⟩ (some 20) none (some 3)
        = get_thumb_output_dimensions ⟨1000, 2000⟩ (some 20) none none ∧
      (1 < (500 : ℚ) → get_thumb_output_dimensions ⟨1000, 2000⟩ none (some 500) none
        = .ok (((pyRound ((500 : ℚ) / 2000 * 1000) : ℤ) : ℚ), 500)) ∧
      (1 < (20 : ℚ) → get_thumb_output_dimensions ⟨1000, 2000⟩ (some 20) none none
        = .ok (20, ((pyRound ((20 : ℚ) / 1000 * 2000) : ℤ) : ℚ))) ∧
      get_thumb_output_dimensions ⟨1000, 2000⟩ (some 20) (some 500) (some 3)
        = .ok (250, 500)) :=
  ⟨by norm_num, by norm_num,
    get_thumb_output_dimensions_precedence ⟨1000, 2000⟩ (some 20) (some 3) 500 20
      (by norm_num) (by norm_num)⟩

/-- C3 counterexample: on a 16-bit image, AUTO_IMAGE does not resolve to the
full bit-depth range; it degrades to the observed per-channel statistics
even though it is not paired with STRETCH_IMAGE. -/
theorem parse_intensity_auto_image_cex :
    parse_intensity_bounds fakeImage16 [0] [0] [0] [.AUTO_IMAGE] [.AUTO_IMAGE] = ([0], [10]) ∧
    ([(0 : ℤ)], [(10 : ℤ)]) ≠ ([0], [65535]) := by
  exact ⟨rfl, by decide⟩

/-- Per-position accessor of `parse_intensity_bounds`: the bound at position
`idx` is its own entry resolved against the channel requested there,
whatever the rest of both entry lists holds. -/
theorem parse_intensity_bounds_get (img : PlaneImage) (channels zs ts : List ℕ)
    (mins maxs : List IntensityEntry) (idx ch : ℕ) (hch : channels.get? idx = some ch) :
    (parse_intensity_bounds img channels zs ts mins maxs).1.get? idx
      = some (resolveMinEntry img ch (entryAt mins idx)) ∧
    (parse_intensity_bounds img channels zs ts mins maxs).2.get? idx
      = some (resolveMaxEntry img ch (entryAt maxs idx)) := by
  constructor <;>
    · simp only [parse_intensity_bounds, List.get?_map, List.enum_get?, Option.map_map]
      simp
      exact ⟨ch, by rw [← List.get?_eq_getElem?]; exact hch, rfl⟩

/-- C3 (amended): at every position of every requested channel list, an
AUTO_IMAGE entry resolves to the full bit-depth bound when the image has at
most 8 significant bits and to the observed per-channel statistic otherwise,
and a STRETCH_IMAGE entry always resolves to the observed per-channel
statistic — each independently of the entire other bound list. -/
theorem parse_intensity_bounds_policies (img : PlaneImage) (channels zs ts : List ℕ)
    (mins maxs : List IntensityEntry) (idx ch : ℕ)
    (hch : channels.get? idx = some ch) :
    (entryAt mins idx = some .AUTO_IMAGE →
      (parse_intensity_bounds img channels zs ts mins maxs).1.get? idx
        = some (if img.significant_bits ≤ 8 then 0 else img.stats_min ch)) ∧
    (entryAt mins idx = some .STRETCH_IMAGE →
      (parse_intensity_bounds img channels zs ts mins maxs).1.get? idx
        = some (img.stats_min ch)) ∧
    (entryAt maxs idx = some .AUTO_IMAGE →
      (parse_intensity_bounds img channels zs ts mins maxs).2.get? idx
        = some (if img.significant_bits ≤ 8 then 2 ^ img.significant_bits - 1
                else img.stats_max ch)) ∧
    (entryAt maxs idx = some .STRETCH_IMAGE →
      (parse_intensity_bounds img channels zs ts mins maxs).2.get? idx
        = some (img.stats_max ch)) := by
  obtain ⟨h1, h2⟩ := parse_intensity_bounds_get img channels zs ts mins maxs idx ch hch
  refine ⟨fun he => ?_, fun he => ?_, fun he => ?_, fun he => ?_⟩
  · rw [h1, he]; rfl
  · rw [h1, he]; rfl
  · rw [h2, he]; rfl
  · rw [h2, he]; rfl

/-- C3 witness: the policy theorem applied to the mixed pairing of the test
suite, a 16-bit request whose second channel asks AUTO_IMAGE for the
minimum against a literal maximum. -/
theorem parse_intensity_bounds_policies_w :
    ([0, 1] : List ℕ).get? 1 = some 1 ∧
    ((entryAt [.value 10, .AUTO_IMAGE] 1 = some .AUTO_IMAGE →
      (parse_intensity_bounds fakeImage16 [0, 1] [0] [0] [.value 10, .AUTO_IMAGE]
          [.value 100000, .value 20]).1.get? 1
        = some (if fakeImage16.significant_bits ≤ 8 then 0 else fakeImage16.stats_min 1)) ∧
    (entryAt [.value 10, .AUTO_IMAGE] 1 = some .STRETCH_IMAGE →
      (parse_intensity_bounds fakeImage16 [0, 1] [0] [0] [.value 10, .AUTO_IMAGE]
          [.value 100000, .value 20]).1.get? 1
        = some (fakeImage16.stats_min 1)) ∧
    (entryAt [.value 100000, .value 20] 1 = some .AUTO_IMAGE →
      (parse_intensity_bounds fakeImage16 [0, 1] [0] [0] [.value 10, .AUTO_IMAGE]
          [.value 100000, .value 20]).2.get? 1
        = some (if fakeImage16.significant_bits ≤ 8
                then 2 ^ fakeImage16.significant_bits - 1 else fakeImage16.stats_max 1)) ∧
    (entryAt [.value 100000, .value 20] 1 = some .STRETCH_IMAGE →
      (parse_intensity_bounds fakeImage16 [0, 1] [0] [0] [.value 10, .AUTO_IMAGE]
          [.value 100000, .value 20]).2.get? 1
        = some (fakeImage16.stats_max 1))) :=
  ⟨rfl, parse_intensity_bounds_policies fakeImage16 [0, 1] [0] [0]
    [.value 10, .AUTO_IMAGE] [.value 100000, .value 20] 1 1 rfl⟩

/-- C4: `safeguard_output_dimensions` keeps the dimensions under UNSAFE;
under SAFE_RESIZE it uniformly downscales so that the longer side equals
`max_size` (rounding down) exactly when the longer side exceeds it; under
SAFE_REJECT it fails with TooLargeOutput exactly when the longer side
exceeds `max_size` and keeps the dimensions otherwise. -/
theorem safeguard_output_dimensions_spec (max_size width height : ℕ)
    (hms : 0 < max_size) (hw : 0 < width) (hh : 0 < height) :
    safeguard_output_dimensions .UNSAFE max_size width height = .ok (width, height) ∧
    (max_size < max width height →
      safeguard_output_dimensions .SAFE_RESIZE max_size width height
        = .ok (width * max_size / max width height, height * max_size / max width height) ∧
      max (width * max_size / max width height) (height * max_size / max width height)
        = max_size) ∧
    (max width height ≤ max_size →
      safeguard_output_dimensions .SAFE_RESIZE max_size width height = .ok (width, height)) ∧
    (safeguard_output_dimensions .SAFE_REJECT max_size width height = .error .tooLargeOutput
      ↔ max_size < max width height) ∧
    (max width height ≤ max_size →
      safeguard_output_dimensions .SAFE_REJECT max_size width height = .ok (width, height)) := by
  have hkey : ∀ a b : ℕ, 0 < a → b ≤ a →
      a * max_size / a = max_size ∧ b * max_size / a ≤ max_size := by
    intro a b ha hba
    have h1 : a * max_size / a = max_size := by
      rw [Nat.mul_comm, Nat.mul_div_cancel _ ha]
    refine ⟨h1, ?_⟩
    calc b * max_size / a ≤ a * max_size / a := Nat.div_le_div_right (Nat.mul_le_mul_right _ hba)
    _ = max_size := h1
  refine ⟨rfl, fun hlt => ?_, fun hle => ?_, ?_, fun hle => ?_⟩
  · by_cases hcmp : height ≤ width
    · have hmax : max width height = width := max_eq_left hcmp
      have hlt' : max_size < width := by rw [hmax] at hlt; exact hlt
      obtain ⟨h1, h2⟩ := hkey width height hw hcmp
      rw [hmax]
      constructor
      · simp [safeguard_output_dimensions, hmax, hlt', hcmp, h1]
      · rw [h1, max_eq_left h2]
    · have hcmp' : width ≤ height := le_of_not_le hcmp
      have hmax : max width height = height := max_eq_right hcmp'
      have hlt' : max_size < height := by rw [hmax] at hlt; exact hlt
      obtain ⟨h1, h2⟩ := hkey height width hh hcmp'
      rw [hmax]
      constructor
      · simp [safeguard_output_dimensions, hmax, hlt', hcmp, h1]
      · rw [h1, max_eq_right h2]
  · simp only [safeguard_output_dimensions, if_neg (not_lt.mpr hle)]
  · constructor
    · intro heq
      by_contra hnot
      have hok : safeguard_output_dimensions .SAFE_REJECT max_size width height
          = .ok (width, height) := by
        simp only [safeguard_output_dimensions, if_neg hnot]
      rw [hok] at heq
      exact Except.noConfusion heq
    · intro hlt
      simp only [safeguard_output_dimensions, if_pos hlt]
  · simp only [safeguard_output_dimensions, if_neg (not_lt.mpr hle)]

/-- C4 witness: the safeguard theorem applied to max_size=100 and a
1000x2000 request, the concrete case of the test suite. -/
theorem safeguard_output_dimensions_spec_w :
    0 < 100 ∧ 0 < 1000 ∧ 0 < 2000 ∧
    (safeguard_output_dimensions .UNSAFE 100 1000 2000 = .ok (1000, 2000) ∧
      (100 < max 1000 2000 →
        safeguard_output_dimensions .SAFE_RESIZE 100 1000 2000
          = .ok (1000 * 100 / max 1000 2000, 2000 * 100 / max 1000 2000) ∧
        max (1000 * 100 / max 1000 2000) (2000 * 100 / max 1000 2000) = 100) ∧
      (max 1000 2000 ≤ 100 →
        safeguard_output_dimensions .SAFE_RESIZE 100 1000 2000 = .ok (1000, 2000)) ∧
      (safeguard_output_dimensions .SAFE_REJECT 100 1000 2000 = .error .tooLargeOutput
        ↔ 100 < max 1000 2000) ∧
      (max 1000 2000 ≤ 100 →
        safeguard_output_dimensions .SAFE_REJECT 100 1000 2000 = .ok (1000, 2000))) :=
  ⟨by decide, by decide, by decide,
    safeguard_output_dimensions_spec 100 1000 2000 (by decide) (by decide) (by decide)⟩

/-- C2 counterexample: the fractional request of the test suite against the
downsample-2 tier of a 1000x2000 pyramid yields the Region expressed at that
tier's own pixel grid, not the claimed level-0 coordinates obtained by
multiplying by the downsample factor. -/
theorem parse_region_not_level0_coords :
    parse_region pyramid3 (1/10) (3/20) (1/50) (1/5) 1 .LEVEL false
      = .ok ⟨100, 75, 10, 200, 2⟩ ∧
    (⟨100, 75, 10, 200, 2⟩ : Region) ≠ ⟨200, 150, 20, 400, 2⟩ := by
  constructor
  · norm_num [parse_region, pyramid3, Pyramid.insert_tier, Pyramid.tierOf,
      Pyramid.tier_at_level, resolveCoord]
  · intro h
    exact absurd (congrArg Region.top h) (by norm_num)

/-- C2 (amended): for every in-bounds `parse_region` request against a tier
selected by zoom-or-level index, the returned Region is expressed at the
selected tier's pixel grid: fractional inputs are converted to absolute
pixels against the tier's width/height, the resolved values are kept
unscaled, and the Region carries downsample = tier.downsample. -/
theorem parse_region_tier_coords (p : Pyramid) (top left width height : ℚ) (tier_idx : ℕ)
    (tt : TierIndexType) (tier : Tier) (ht : p.tierOf tier_idx tt = some tier)
    (h1 : 0 ≤ resolveCoord top tier.height) (h2 : 0 ≤ resolveCoord left tier.width)
    (h3 : resolveCoord left tier.width + resolveCoord width tier.width ≤ tier.width)
    (h4 : resolveCoord top tier.height + resolveCoord height tier.height ≤ tier.height) :
    parse_region p top left width height tier_idx tt false =
      .ok ⟨resolveCoord top tier.height, resolveCoord left tier.width,
           resolveCoord width tier.width, resolveCoord height tier.height, tier.downsample⟩ := by
  simp only [parse_region, ht, Bool.false_eq_true, if_false]
  rw [if_pos ⟨h1, h2, h3, h4⟩]

/-- C2 witness: the amended theorem applied to the fractional request of the
test suite against the downsample-2 tier of the 1000x2000 pyramid. -/
theorem parse_region_tier_coords_w :
    pyramid3.tierOf 1 .LEVEL = some ⟨1, 500, 1000, 256, 2⟩ ∧
    0 ≤ resolveCoord (1/10) (1000 : ℚ) ∧ 0 ≤ resolveCoord (3/20) (500 : ℚ) ∧
    resolveCoord (3/20) (500 : ℚ) + resolveCoord (1/50) (500 : ℚ) ≤ (500 : ℚ) ∧
    resolveCoord (1/10) (1000 : ℚ) + resolveCoord (1/5) (1000 : ℚ) ≤ (1000 : ℚ) ∧
    parse_region pyramid3 (1/10) (3/20) (1/50) (1/5) 1 .LEVEL false =
      .ok ⟨resolveCoord (1/10) (1000 : ℚ), resolveCoord (3/20) (500 : ℚ),
           resolveCoord (1/50) (500 : ℚ), resolveCoord (1/5) (1000 : ℚ), 2⟩ :=
  ⟨by norm_num [pyramid3, Pyramid.insert_tier, Pyramid.tierOf, Pyramid.tier_at_level],
   by norm_num [resolveCoord], by norm_num [resolveCoord], by norm_num [resolveCoord],
   by norm_num [resolveCoord],
   parse_region_tier_coords pyramid3 (1/10) (3/20) (1/50) (1/5) 1 .LEVEL ⟨1, 500, 1000, 256, 2⟩
     (by norm_num [pyramid3, Pyramid.insert_tier, Pyramid.tierOf, Pyramid.tier_at_level])
     (by norm_num [resolveCoord]) (by norm_num [resolveCoord]) (by norm_num [resolveCoord])
     (by norm_num [resolveCoord])⟩

/-- Completeness of the best-not-exceeding scan: when it returns nothing,
every tier of the list exceeds the target. -/
theorem bestTierLE_none (d : ℚ) (ts : List Tier) (h : bestTierLE d ts = none) :
    ∀ u ∈ ts, ¬ u.downsample ≤ d := by
  induction ts with
  | nil => intro u hu; exact absurd hu (List.not_mem_nil u)
  | cons hd tl ih =>
    cases hrec : bestTierLE d tl with
    | none =>
      simp only [bestTierLE, hrec] at h
      by_cases hle : hd.downsample ≤ d
      · simp [hle] at h
      · intro u hu
        rcases List.mem_cons.mp hu with rfl | hutl
        · exact hle
        · exact ih hrec u hutl
    | some b =>
      simp only [bestTierLE, hrec] at h
      by_cases hle : hd.downsample ≤ d
      · by_cases hcmp : b.downsample ≤ hd.downsample <;> simp [hle, hcmp] at h
      · simp [hle] at h

/-- Soundness of the best-not-exceeding scan: a returned tier belongs to the
list, does not exceed the target, and dominates every tier that does not
exceed the target. -/
theorem bestTierLE_sound (d : ℚ) (ts : List Tier) (t : Tier) (h : bestTierLE d ts = some t) :
    t ∈ ts ∧ t.downsample ≤ d ∧
      ∀ u ∈ ts, u.downsample ≤ d → u.downsample ≤ t.downsample := by
  induction ts generalizing t with
  | nil => exact absurd h (by simp [bestTierLE])
  | cons hd tl ih =>
    cases hrec : bestTierLE d tl with
    | none =>
      simp only [bestTierLE, hrec] at h
      by_cases hle : hd.downsample ≤ d
      · rw [if_pos hle] at h
        obtain rfl : hd = t := Option.some.inj h
        refine ⟨List.mem_cons_self _ _, hle, ?_⟩
        intro u hu hud
        rcases List.mem_cons.mp hu with rfl | hutl
        · exact le_refl _
        · exact absurd (bestTierLE_none d tl hrec u hutl) (not_not.mpr hud)
      · rw [if_neg hle] at h
        exact absurd h (by simp)
    | some b =>
      simp only [bestTierLE, hrec] at h
      obtain ⟨hbmem, hbled, hbmax⟩ := ih b hrec
      by_cases hle : hd.downsample ≤ d
      · rw [if_pos hle] at h
        by_cases hcmp : b.downsample ≤ hd.downsample
        · rw [if_pos hcmp] at h
          obtain rfl : hd = t := Option.some.inj h
          refine ⟨List.mem_cons_self _ _, hle, ?_⟩
          intro u hu hud
          rcases List.mem_cons.mp hu with rfl | hutl
          · exact le_refl _
          · exact le_trans (hbmax u hutl hud) hcmp
        · rw [if_neg hcmp] at h
          obtain rfl : b = t := Option.some.inj h
          refine ⟨List.mem_cons_of_mem _ hbmem, hbled, ?_⟩
          intro u hu hud
          rcases List.mem_cons.mp hu with rfl | hutl
          · exact le_of_lt (lt_of_not_le hcmp)
          · exact hbmax u hutl hud
      · rw [if_neg hle] at h
        obtain rfl : b = t := Option.some.inj h
        refine ⟨List.mem_cons_of_mem _ hbmem, hbled, ?_⟩
        intro u hu hud
        rcases List.mem_cons.mp hu with rfl | hutl
        · exact absurd hud hle
        · exact hbmax u hutl hud

/-- The coarsest-tier scan returns nothing only on the empty list. -/
theorem coarsestTier_eq_none (ts : List Tier) (h : coarsestTier ts = none) : ts = [] := by
  cases ts with
  | nil => rfl
  | cons x xs =>
    cases hcc : coarsestTier xs with
    | none => simp only [coarsestTier, hcc] at h; exact absurd h (by simp)
    | some b =>
      simp only [coarsestTier, hcc] at h
      by_cases hcmp : b.downsample ≤ x.downsample <;> simp [hcmp] at h

/-- The coarsest-tier scan returns a member dominating the whole list. -/
theorem coarsestTier_sound (ts : List Tier) (t : Tier) (h : coarsestTier ts = some t) :
    t ∈ ts ∧ ∀ u ∈ ts, u.downsample ≤ t.downsample := by
  induction ts generalizing t with
  | nil => exact absurd h (by simp [coarsestTier])
  | cons hd tl ih =>
    cases hrec : coarsestTier tl with
    | none =>
      have htl := coarsestTier_eq_none tl hrec
      subst htl
      simp only [coarsestTier] at h
      obtain rfl : hd = t := Option.some.inj h
      refine ⟨List.mem_cons_self _ _, ?_⟩
      intro u hu
      rcases List.mem_cons.mp hu with rfl | h0
      · exact le_refl _
      · exact absurd h0 (List.not_mem_nil u)
    | some b =>
      simp only [coarsestTier, hrec] at h
      obtain ⟨hbmem, hbmax⟩ := ih b hrec
      by_cases hcmp : b.downsample ≤ hd.downsample
      · rw [if_pos hcmp] at h
        obtain rfl : hd = t := Option.some.inj h
        refine ⟨List.mem_cons_self _ _, ?_⟩
        intro u hu
        rcases List.mem_cons.mp hu with rfl | hutl
        · exact le_refl _
        · exact le_trans (hbmax u hutl) hcmp
      · rw [if_neg hcmp] at h
        obtain rfl : b = t := Option.some.inj h
        refine ⟨List.mem_cons_of_mem _ hbmem, ?_⟩
        intro u hu
        rcases List.mem_cons.mp hu with rfl | hutl
        · exact le_of_lt (lt_of_not_le hcmp)
        · exact hbmax u hutl

/-- The coarsest-tier scan succeeds on every nonempty list. -/
theorem coarsestTier_isSome (ts : List Tier) (hne : ts ≠ []) :
    ∃ t, coarsestTier ts = some t := by
  cases ts with
  | nil => exact absurd rfl hne
  | cons hd tl =>
    rw [coarsestTier]
    cases hrec : coarsestTier tl with
    | none => exact ⟨hd, rfl⟩
    | some b => by_cases hcmp : b.downsample ≤ hd.downsample <;> simp [hcmp]

/-- C5: on every nonempty pyramid, `most_appropriate_tier_for_downsample`
returns a tier of the pyramid that either maximizes the downsample among
tiers whose downsample does not exceed the target, or, when every tier
exceeds the target, is the coarsest tier. -/
theorem most_appropriate_tier_spec (p : Pyramid) (d : ℚ) (hne : p.tiers ≠ []) :
    ∃ t, p.most_appropriate_tier_for_downsample d = some t ∧ t ∈ p.tiers ∧
      ((t.downsample ≤ d ∧ ∀ u ∈ p.tiers, u.downsample ≤ d → u.downsample ≤ t.downsample) ∨
       ((∀ u ∈ p.tiers, ¬ u.downsample ≤ d) ∧ ∀ u ∈ p.tiers, u.downsample ≤ t.downsample)) := by
  rw [Pyramid.most_appropriate_tier_for_downsample]
  cases hbest : bestTierLE d p.tiers with
  | some t =>
    obtain ⟨hmem, hled, hmax⟩ := bestTierLE_sound d p.tiers t hbest
    exact ⟨t, rfl, hmem, Or.inl ⟨hled, hmax⟩⟩
  | none =>
    obtain ⟨t, hct⟩ := coarsestTier_isSome p.tiers hne
    obtain ⟨hmem, hmax⟩ := coarsestTier_sound p.tiers t hct
    exact ⟨t, hct, hmem, Or.inr ⟨bestTierLE_none d p.tiers hbest, hmax⟩⟩

/-- C5 witness: the tier-selection theorem applied to the three-tier
1000x2000 pyramid with target downsample 3. -/
theorem most_appropriate_tier_spec_w :
    pyramid3.tiers ≠ [] ∧
    (∃ t, pyramid3.most_appropriate_tier_for_downsample 3 = some t ∧ t ∈ pyramid3.tiers ∧
      ((t.downsample ≤ 3 ∧ ∀ u ∈ pyramid3.tiers, u.downsample ≤ 3 →
          u.downsample ≤ t.downsample) ∨
       ((∀ u ∈ pyramid3.tiers, ¬ u.downsample ≤ 3) ∧
          ∀ u ∈ pyramid3.tiers, u.downsample ≤ t.downsample))) :=
  ⟨by simp [pyramid3, Pyramid.insert_tier],
   most_appropriate_tier_spec pyramid3 3 (by simp [pyramid3, Pyramid.insert_tier])⟩

/-- Collection pass on a list of well-formed entries: the expansions are
concatenated in order. -/
theorem collectPlanes_ok (n : ℕ) (planes : List PlaneSelector)
    (h : ∀ s, PlaneSelector.str s ∈ planes → (parseSliceStr s).isSome) :
    collectPlanes n planes = .ok ((planes.map (expandEntry n)).join) := by
  induction planes with
  | nil => rfl
  | cons e rest ih =>
    have hrest : ∀ s, PlaneSelector.str s ∈ rest → (parseSliceStr s).isSome :=
      fun s hs => h s (List.mem_cons_of_mem _ hs)
    cases e with
    | int i =>
      simp only [collectPlanes, ih hrest]
      simp [expandEntry]
    | str s =>
      have hs := h s (List.mem_cons_self _ _)
      cases hps : parseSliceStr s with
      | none => rw [hps] at hs; exact absurd hs (by simp)
      | some bounds =>
        simp only [collectPlanes, hps, ih hrest]
        simp [expandEntry, hps]

/-- Collection pass with a malformed slice entry: the scan fails with
BadRequest. -/
theorem collectPlanes_err (n : ℕ) (planes : List PlaneSelector) (s : String)
    (hmem : PlaneSelector.str s ∈ planes) (hbad : parseSliceStr s = none) :
    collectPlanes n planes = .error .badRequest := by
  induction planes with
  | nil => exact absurd hmem (List.not_mem_nil _)
  | cons e rest ih =>
    rcases List.mem_cons.mp hmem with heq | hmemr
    · rw [← heq]
      simp only [collectPlanes, hbad]
    · cases e with
      | int i => simp only [collectPlanes, ih hmemr]
      | str s2 =>
        cases hps : parseSliceStr s2 with
        | none => simp only [collectPlanes, hps]
        | some bounds => simp only [collectPlanes, hps, ih hmemr]

/-- C6: `parse_planes` succeeds exactly when every slice-string entry is
well formed; on success its result is the in-order expansion of all entries
with out-of-range indices silently dropped, falling back to the supplied
default when that expansion is empty; a malformed entry yields BadRequest. -/
theorem parse_planes_spec (planes : List PlaneSelector) (n : ℕ) (dflt : List ℤ) :
    ((∃ l, parse_planes planes n dflt = .ok l) ↔
      ∀ s, PlaneSelector.str s ∈ planes → (parseSliceStr s).isSome) ∧
    ((∀ s, PlaneSelector.str s ∈ planes → (parseSliceStr s).isSome) →
      parse_planes planes n dflt =
        .ok (if ((planes.map (expandEntry n)).join.filter
                  fun i => decide (0 ≤ i ∧ i < (n : ℤ))) = []
             then dflt
             else (planes.map (expandEntry n)).join.filter
                  fun i => decide (0 ≤ i ∧ i < (n : ℤ)))) ∧
    ((∃ s, PlaneSelector.str s ∈ planes ∧ parseSliceStr s = none) →
      parse_planes planes n dflt = .error .badRequest) := by
  have hok : (∀ s, PlaneSelector.str s ∈ planes → (parseSliceStr s).isSome) →
      parse_planes planes n dflt =
        .ok (if ((planes.map (expandEntry n)).join.filter
                  fun i => decide (0 ≤ i ∧ i < (n : ℤ))) = []
             then dflt
             else (planes.map (expandEntry n)).join.filter
                  fun i => decide (0 ≤ i ∧ i < (n : ℤ))) := by
    intro hwf
    simp only [parse_planes, collectPlanes_ok n planes hwf]
    rw [apply_ite (Except.ok : List ℤ → Except PimsError (List ℤ))]
  refine ⟨⟨?_, fun hwf => ⟨_, hok hwf⟩⟩, hok, ?_⟩
  · rintro ⟨l, hl⟩ s hmem
    by_contra hns
    have hbad : parseSliceStr s = none := Option.not_isSome_iff_eq_none.mp hns
    rw [parse_planes, collectPlanes_err n planes s hmem hbad] at hl
    exact Except.noConfusion hl
  · rintro ⟨s, hmem, hbad⟩
    simp only [parse_planes, collectPlanes_err n planes s hmem hbad]

/-- Appending one entry to the registry only affects lookups that previously
failed, and only for the appended key. -/
theorem regLookup_append (key : String) (reg : ColormapRegistry) (e : String × Colormap) :
    regLookup key (reg ++ [e]) =
      match regLookup key reg with
      | some v => some v
      | none => if e.1 = key then some e.2 else none := by
  induction reg with
  | nil => rfl
  | cons x rest ih =>
    by_cases hx : x.1 = key <;> simp [regLookup, hx, ih]

/-- C7: resolving a literal hex colormap identifier whose canonical key is
absent from the registry registers it under that canonical uppercase key and
returns it; the registration is visible to a second identical call, which
resolves from the registry to the same colormap and leaves the registry
unchanged; an identifier matching neither a registry entry nor a valid hex
pattern fails with ColormapNotFound. -/
theorem parse_colormap_hex_spec (reg : ColormapRegistry) (c : Color) (s badId : String)
    (rgb : ℕ × ℕ × ℕ)
    (hparse : parseHexColor (hexBody s) = some rgb)
    (hlit : regLookup (literalKey s) reg = none)
    (hcanon : regLookup (canonKey s rgb) reg = none)
    (hbadlit : regLookup (literalKey badId) reg = none)
    (hbadhex : parseHexColor (hexBody badId) = none) :
    parse_colormap_id (.named s) reg c =
      .ok (some ⟨canonKey s rgb, isInvertedId s⟩,
           reg ++ [(canonKey s rgb, ⟨canonKey s rgb, isInvertedId s⟩)]) ∧
    parse_colormap_id (.named s)
        (reg ++ [(canonKey s rgb, ⟨canonKey s rgb, isInvertedId s⟩)]) c =
      .ok (some ⟨canonKey s rgb, isInvertedId s⟩,
           reg ++ [(canonKey s rgb, ⟨canonKey s rgb, isInvertedId s⟩)]) ∧
    parse_colormap_id (.named badId) reg c = .error .colormapNotFound := by
  refine ⟨?_, ?_, ?_⟩
  · simp only [parse_colormap_id, hlit, hparse, hcanon]
  · have hl2 : regLookup (literalKey s)
        (reg ++ [(canonKey s rgb, ⟨canonKey s rgb, isInvertedId s⟩)]) =
        if canonKey s rgb = literalKey s
        then some (⟨canonKey s rgb, isInvertedId s⟩ : Colormap) else none := by
      rw [regLookup_append, hlit]
    have hc2 : regLookup (canonKey s rgb)
        (reg ++ [(canonKey s rgb, ⟨canonKey s rgb, isInvertedId s⟩)]) =
        some ⟨canonKey s rgb, isInvertedId s⟩ := by
      rw [regLookup_append, hcanon]
      simp
    by_cases hkey : canonKey s rgb = literalKey s
    · have hfound : regLookup (literalKey s)
          (reg ++ [(canonKey s rgb, ⟨canonKey s rgb, isInvertedId s⟩)]) =
          some ⟨canonKey s rgb, isInvertedId s⟩ := by rw [hl2, if_pos hkey]
      simp only [parse_colormap_id, hfound]
    · have hmiss : regLookup (literalKey s)
          (reg ++ [(canonKey s rgb, ⟨canonKey s rgb, isInvertedId s⟩)]) = none := by
        rw [hl2, if_neg hkey]
      simp only [parse_colormap_id, hmiss, hparse, hc2]
  · simp only [parse_colormap_id, hbadlit, hbadhex]

/-- C7 witness: the registration theorem applied to the literal hex color
of the test suite, the unknown identifier of the test suite, and the base
registry of named colormaps. -/
theorem parse_colormap_hex_spec_w :
    parseHexColor (hexBody "#abcdef") = some (171, 205, 239) ∧
    regLookup (literalKey "#abcdef") baseColormaps = none ∧
    regLookup (canonKey "#abcdef" (171, 205, 239)) baseColormaps = none ∧
    regLookup (literalKey "brol") baseColormaps = none ∧
    parseHexColor (hexBody "brol") = none ∧
    (parse_colormap_id (.named "#abcdef") baseColormaps ⟨"red"⟩ =
      .ok (some ⟨canonKey "#abcdef" (171, 205, 239), isInvertedId "#abcdef"⟩,
           baseColormaps ++ [(canonKey "#abcdef" (171, 205, 239),
             ⟨canonKey "#abcdef" (171, 205, 239), isInvertedId "#abcdef"⟩)]) ∧
    parse_colormap_id (.named "#abcdef")
        (baseColormaps ++ [(canonKey "#abcdef" (171, 205, 239),
          ⟨canonKey "#abcdef" (171, 205, 239), isInvertedId "#abcdef"⟩)]) ⟨"red"⟩ =
      .ok (some ⟨canonKey "#abcdef" (171, 205, 239), isInvertedId "#abcdef"⟩,
           baseColormaps ++ [(canonKey "#abcdef" (171, 205, 239),
             ⟨canonKey "#abcdef" (171, 205, 239), isInvertedId "#abcdef"⟩)]) ∧
    parse_colormap_id (.named "brol") baseColormaps ⟨"red"⟩ = .error .colormapNotFound) :=
  ⟨rfl, rfl, rfl, rfl, rfl,
   parse_colormap_hex_spec baseColormaps ⟨"red"⟩ "#abcdef" "brol" (171, 205, 239)
     rfl rfl rfl rfl rfl⟩

/-- Colon replacement leaves no colon behind. -/
theorem replaceColonDot_no_colon (s : List Char) : ':' ∉ replaceColonDot s := by
  intro hmem
  rw [replaceColonDot] at hmem
  obtain ⟨c, hc, heq⟩ := List.mem_map.mp hmem
  by_cases h : c = ':'
  · rw [if_pos h] at heq
    exact absurd heq (by decide)
  · rw [if_neg h] at heq
    exact h heq

/-- A dot-free pattern can only prefix the colon-replaced key if it already
prefixed the original key. -/
theorem isPrefixOf_replaceColonDot (pat : List Char) (hdot : '.' ∉ pat) :
    ∀ s : List Char, pat.isPrefixOf (replaceColonDot s) = true → pat.isPrefixOf s = true := by
  induction pat with
  | nil => intro s _; cases s <;> rfl
  | cons p ps ih =>
    intro s h
    cases s with
    | nil => rw [replaceColonDot] at h; simp [List.isPrefixOf] at h
    | cons c cs =>
      rw [replaceColonDot, List.map_cons] at h
      simp only [List.isPrefixOf, Bool.and_eq_true, beq_iff_eq] at h ⊢
      obtain ⟨h1, h2⟩ := h
      have hps : '.' ∉ ps := fun hm => hdot (List.mem_cons_of_mem _ hm)
      refine ⟨?_, ih hps cs h2⟩
      by_cases hc : c = ':'
      · rw [if_pos hc] at h1
        exact absurd h1 (fun he => hdot (he ▸ List.mem_cons_self _ _))
      · rw [if_neg hc] at h1
        exact h1

/-- A dot-free word equal to a colon-replaced key equals the original key. -/
theorem replaceColonDot_eq_of_no_dot (t : List Char) (hdot : '.' ∉ t) :
    ∀ s : List Char, replaceColonDot s = t → s = t := by
  induction t with
  | nil =>
    intro s h
    cases s with
    | nil => rfl
    | cons c cs => rw [replaceColonDot] at h; simp at h
  | cons d ds ih =>
    intro s h
    cases s with
    | nil => rw [replaceColonDot] at h; simp at h
    | cons c cs =>
      rw [replaceColonDot, List.map_cons] at h
      obtain ⟨h1, h2⟩ := List.cons.injEq _ _ _ _ ▸ h
      have hds : '.' ∉ ds := fun hm => hdot (List.mem_cons_of_mem _ hm)
      have hcs := ih hds cs (by rw [replaceColonDot]; exact h2)
      by_cases hc : c = ':'
      · rw [if_pos hc] at h1
        exact absurd h1.symm (fun he => hdot (he ▸ List.mem_cons_self _ _))
      · rw [if_neg hc] at h1
        rw [h1, hcs]

/-- C9: every key of the metadata dict returned by `read_raw_metadata` is
colon-free and does not start with ExifTool or File nor equal SourceFile;
and a nonzero exiftool return code yields the empty dict. -/
theorem read_raw_metadata_keys (rc : ℤ) (j : PyJson) :
    (∀ kv ∈ read_raw_metadata rc j,
        ':' ∉ kv.1.data ∧ strStartsWith kv.1 "ExifTool" = false ∧
        strStartsWith kv.1 "File" = false ∧ kv.1 ≠ "SourceFile") ∧
    (rc ≠ 0 → read_raw_metadata rc j = []) := by
  constructor
  · intro kv hkv
    by_cases hrc : rc = 0
    case neg =>
      rw [read_raw_metadata, if_neg hrc] at hkv
      exact absurd hkv (List.not_mem_nil kv)
    subst hrc
    rw [read_raw_metadata, if_pos rfl] at hkv
    cases hof : objFields (unwrapFirst j) with
    | none => rw [hof] at hkv; exact absurd hkv (List.not_mem_nil kv)
    | some fields =>
      rw [hof] at hkv
      obtain ⟨kv0, hmem0, hkv0⟩ := List.mem_map.mp hkv
      have hkeep := (List.mem_filter.mp hmem0).2
      rw [exifKeep] at hkeep
      simp only [Bool.and_eq_true, Bool.not_eq_true'] at hkeep
      obtain ⟨⟨⟨hexif, hfile⟩, hsrc⟩, _⟩ := hkeep
      have hkey : kv.1 = String.mk (replaceColonDot kv0.1.data) := by
        rw [← hkv0]; rfl
      refine ⟨?_, ?_, ?_, ?_⟩
      · rw [hkey]
        exact replaceColonDot_no_colon kv0.1.data
      · rw [hkey]
        cases hb : strStartsWith ⟨replaceColonDot kv0.1.data⟩ "ExifTool" with
        | false => rfl
        | true =>
          rw [strStartsWith] at hb
          have := isPrefixOf_replaceColonDot "ExifTool".data (by decide) kv0.1.data hb
          rw [strStartsWith] at hexif
          rw [this] at hexif
          exact absurd hexif (by decide)
      · rw [hkey]
        cases hb : strStartsWith ⟨replaceColonDot kv0.1.data⟩ "File" with
        | false => rfl
        | true =>
          rw [strStartsWith] at hb
          have := isPrefixOf_replaceColonDot "File".data (by decide) kv0.1.data hb
          rw [strStartsWith] at hfile
          rw [this] at hfile
          exact absurd hfile (by decide)
      · rw [hkey]
        intro heq
        have hdata : replaceColonDot kv0.1.data = "SourceFile".data := congrArg String.data heq
        have horig : kv0.1.data = "SourceFile".data :=
          replaceColonDot_eq_of_no_dot "SourceFile".data (by decide) kv0.1.data hdata
        have hstr : kv0.1 = "SourceFile" := congrArg String.mk horig
        rw [hstr] at hsrc
        simp at hsrc
  · intro hrc
    rw [read_raw_metadata, if_neg hrc]

/-- Success path of the resolution-file generation: with every stripped
resolution order matching the integer-or-empty pattern, one output row is
produced per plugin, in order. -/
theorem generate_checker_ok (plugins : List PluginRow)
    (h : ∀ row ∈ plugins, resolutionOrderOk (pyStrip row.resolution_order).data = true) :
    generate_checker_resolution_file plugins = .ok (plugins.map fun row =>
      (pyStrip row.name,
       if (pyStrip row.resolution_order).data = [] then 0
       else pyInt (pyStrip row.resolution_order).data)) := by
  induction plugins with
  | nil => rfl
  | cons row rest ih =>
    have hrow := h row (List.mem_cons_self _ _)
    have hrest : ∀ r ∈ rest, resolutionOrderOk (pyStrip r.resolution_order).data = true :=
      fun r hr => h r (List.mem_cons_of_mem _ hr)
    simp [generate_checker_resolution_file, hrow, ih hrest]

/-- Failure path of the resolution-file generation: a plugin whose stripped
resolution order fails the pattern makes the whole run raise. -/
theorem generate_checker_err (plugins : List PluginRow) (row : PluginRow)
    (hmem : row ∈ plugins)
    (hbad : resolutionOrderOk (pyStrip row.resolution_order).data = false) :
    ∃ e, generate_checker_resolution_file plugins = .error e := by
  induction plugins with
  | nil => exact absurd hmem (List.not_mem_nil _)
  | cons r rest ih =>
    rcases List.mem_cons.mp hmem with heq | hmemr
    · subst heq
      exact ⟨"Review resolution order " ++ pyStrip row.resolution_order ++ " for plugin "
          ++ pyStrip row.name ++ ": the resolution order must be an integer or empty string",
        by simp [generate_checker_resolution_file, hbad]⟩
    · cases hr : resolutionOrderOk (pyStrip r.resolution_order).data with
      | false =>
        exact ⟨"Review resolution order " ++ pyStrip r.resolution_order ++ " for plugin "
            ++ pyStrip r.name ++ ": the resolution order must be an integer or empty string",
          by simp [generate_checker_resolution_file, hr]⟩
      | true =>
        obtain ⟨e, he⟩ := ih hmemr
        exact ⟨e, by simp [generate_checker_resolution_file, hr, he]⟩

/-- C10: the resolution-file generation raises exactly when some plugin's
stripped resolution order is neither empty nor an optionally minus-prefixed
digit string; on success it writes one row per plugin, in order, with an
empty order written as 0 and any other as its parsed integer. -/
theorem generate_checker_resolution_file_spec (plugins : List PluginRow) :
    ((∃ e, generate_checker_resolution_file plugins = .error e) ↔
      ∃ row ∈ plugins, resolutionOrderOk (pyStrip row.resolution_order).data = false) ∧
    ((∀ row ∈ plugins, resolutionOrderOk (pyStrip row.resolution_order).data = true) →
      generate_checker_resolution_file plugins = .ok (plugins.map fun row =>
        (pyStrip row.name,
         if (pyStrip row.resolution_order).data = [] then 0
         else pyInt (pyStrip row.resolution_order).data))) := by
  refine ⟨⟨?_, ?_⟩, generate_checker_ok plugins⟩
  · rintro ⟨e, he⟩
    by_contra hno
    push_neg at hno
    have hall : ∀ row ∈ plugins, resolutionOrderOk (pyStrip row.resolution_order).data = true := by
      intro r hr
      have := hno r hr
      cases hb : resolutionOrderOk (pyStrip r.resolution_order).data with
      | true => rfl
      | false => exact absurd hb this
    rw [generate_checker_ok plugins hall] at he
    exact Except.noConfusion he
  · rintro ⟨row, hmem, hbad⟩
    exact generate_checker_err plugins row hmem hbad

/-- Split of a separator-free piece: everything accumulates into one chunk. -/
theorem splitCharAux_no_sep (sep : Char) (l : List Char) (hl : sep ∉ l) :
    ∀ acc, splitCharAux sep acc l = [acc.reverse ++ l] := by
  induction l with
  | nil => intro acc; simp [splitCharAux]
  | cons c cs ih =>
    intro acc
    have hc : c ≠ sep := fun he => hl (he ▸ List.mem_cons_self _ _)
    have hcs : sep ∉ cs := fun hm => hl (List.mem_cons_of_mem _ hm)
    rw [splitCharAux, if_neg hc, ih hcs]
    simp

/-- Split across the first separator after a separator-free piece. -/
theorem splitCharAux_append_sep (sep : Char) (l rest : List Char) (hl : sep ∉ l) :
    ∀ acc, splitCharAux sep acc (l ++ sep :: rest)
      = (acc.reverse ++ l) :: splitCharAux sep [] rest := by
  induction l with
  | nil => intro acc; simp [splitCharAux]
  | cons c cs ih =>
    intro acc
    have hc : c ≠ sep := fun he => hl (he ▸ List.mem_cons_self _ _)
    have hcs : sep ∉ cs := fun hm => hl (List.mem_cons_of_mem _ hm)
    rw [List.cons_append, splitCharAux, if_neg hc, ih hcs]
    simp

/-- Splitting a slash-joined list of slash-free components recovers them. -/
theorem intercalateSlash_split (cs : List (List Char)) (hne : cs ≠ [])
    (hfree : ∀ c ∈ cs, '/' ∉ c) :
    splitCharAux '/' [] (intercalateSlash cs) = cs := by
  induction cs with
  | nil => exact absurd rfl hne
  | cons c rest ih =>
    cases rest with
    | nil =>
      rw [show intercalateSlash [c] = c from rfl,
        splitCharAux_no_sep '/' c (hfree c (List.mem_cons_self _ _)) []]
      simp
    | cons c2 rest2 =>
      rw [show intercalateSlash (c :: c2 :: rest2)
            = c ++ '/' :: intercalateSlash (c2 :: rest2) from rfl,
        splitCharAux_append_sep '/' c _ (hfree c (List.mem_cons_self _ _)) [],
        ih (by simp) (fun x hx => hfree x (List.mem_cons_of_mem _ hx))]
      simp

/-- Parsing a slash-joined list of clean components recovers them. -/
theorem pathComponents_intercalate (cs : List (List Char)) (hne : cs ≠ [])
    (hclean : ∀ c ∈ cs, c ≠ [] ∧ c ≠ ['.'] ∧ '/' ∉ c) :
    pathComponents (intercalateSlash cs) = cs := by
  rw [pathComponents, intercalateSlash_split cs hne (fun c hc => (hclean c hc).2.2)]
  exact List.filter_eq_self.mpr
    (fun a ha => decide_eq_true ⟨(hclean a ha).1, (hclean a ha).2.1⟩)

/-- A leading slash contributes no component. -/
theorem pathComponents_slash_cons (l : List Char) :
    pathComponents ('/' :: l) = pathComponents l := by
  rw [pathComponents, pathComponents, splitCharAux, if_pos rfl]
  simp

/-- A slash-joined list of clean components starts with a non-slash
character. -/
theorem intercalateSlash_head (cs : List (List Char)) (hne : cs ≠ [])
    (hclean : ∀ c ∈ cs, c ≠ [] ∧ c ≠ ['.'] ∧ '/' ∉ c) :
    ∃ ch t, intercalateSlash cs = ch :: t ∧ ch ≠ '/' := by
  cases cs with
  | nil => exact absurd rfl hne
  | cons c rest =>
    obtain ⟨hcne, -, hcfree⟩ := hclean c (List.mem_cons_self _ _)
    cases c with
    | nil => exact absurd rfl hcne
    | cons ch ct =>
      have hch : ch ≠ '/' := fun he => hcfree (he ▸ List.mem_cons_self _ _)
      cases rest with
      | nil => exact ⟨ch, ct, rfl, hch⟩
      | cons c2 rest2 => exact ⟨ch, ct ++ '/' :: intercalateSlash (c2 :: rest2), rfl, hch⟩

/-- A string not starting with a slash has no POSIX root. -/
theorem posixRoot_cons_ne (ch : Char) (t : List Char) (h : ch ≠ '/') :
    posixRoot (ch :: t) = [] := by
  rcases t with _ | ⟨c2, t2⟩
  · simp [posixRoot, h]
  · rcases t2 with _ | ⟨c3, t3⟩ <;> simp [posixRoot, h]

/-- A single leading slash followed by a non-slash character gives the
single-slash root. -/
theorem posixRoot_slash_cons (ch : Char) (t : List Char) (h : ch ≠ '/') :
    posixRoot ('/' :: ch :: t) = ['/'] := by
  rcases t with _ | ⟨c3, t3⟩ <;> simp [posixRoot, h]

/-- Joining appended component lists inserts a single separating slash. -/
theorem intercalateSlash_append (xs ys : List (List Char)) (hx : xs ≠ []) (hy : ys ≠ []) :
    intercalateSlash (xs ++ ys) = intercalateSlash xs ++ '/' :: intercalateSlash ys := by
  induction xs with
  | nil => exact absurd rfl hx
  | cons c rest ih =>
    cases rest with
    | nil =>
      cases ys with
      | nil => exact absurd rfl hy
      | cons y ys2 =>
        rw [show ([c] ++ y :: ys2) = c :: y :: ys2 from rfl,
          show intercalateSlash (c :: y :: ys2)
            = c ++ '/' :: intercalateSlash (y :: ys2) from rfl,
          show intercalateSlash [c] = c from rfl]
    | cons c2 rest2 =>
      rw [show (c :: c2 :: rest2) ++ ys = c :: (c2 :: rest2 ++ ys) from rfl]
      have h2 : (c2 :: rest2) ++ ys = c2 :: (rest2 ++ ys) := rfl
      have hstep : intercalateSlash (c :: (c2 :: rest2 ++ ys))
          = c ++ '/' :: intercalateSlash (c2 :: rest2 ++ ys) := by
        rw [h2]; rfl
      rw [hstep, ih (by simp),
        show intercalateSlash (c :: c2 :: rest2)
          = c ++ '/' :: intercalateSlash (c2 :: rest2) from rfl]
      simp

/-- A slash-joined list of clean components does not end with a slash. -/
theorem intercalateSlash_getLast (cs : List (List Char)) (hne : cs ≠ [])
    (hclean : ∀ c ∈ cs, c ≠ [] ∧ c ≠ ['.'] ∧ '/' ∉ c) :
    (intercalateSlash cs).getLast? ≠ some '/' := by
  induction cs with
  | nil => exact absurd rfl hne
  | cons c rest ih =>
    obtain ⟨hcne, -, hcfree⟩ := hclean c (List.mem_cons_self _ _)
    cases rest with
    | nil =>
      rw [show intercalateSlash [c] = c from rfl]
      intro hl
      exact hcfree (List.mem_of_mem_getLast? hl)
    | cons c2 rest2 =>
      have hr := ih (by simp) (fun x hx => hclean x (List.mem_cons_of_mem _ hx))
      rw [show intercalateSlash (c :: c2 :: rest2)
            = c ++ '/' :: intercalateSlash (c2 :: rest2) from rfl]
      obtain ⟨ch, t, hht, -⟩ := intercalateSlash_head (c2 :: rest2) (by simp)
        (fun x hx => hclean x (List.mem_cons_of_mem _ hx))
      rw [List.getLast?_append_of_ne_nil c (by simp),
        show ('/' :: intercalateSlash (c2 :: rest2))
          = ['/'] ++ intercalateSlash (c2 :: rest2) from rfl,
        List.getLast?_append_of_ne_nil ['/'] (by rw [hht]; simp)]
      exact hr

/-- A nonempty pattern prefixes itself extended by anything. -/
theorem isPrefixOf_append_self (l s : List Char) : l.isPrefixOf (l ++ s) = true := by
  induction l with
  | nil => cases s <;> rfl
  | cons c ct ih => simp [List.isPrefixOf, ih]

/-- Skipping as many characters as a chunk's length lands after the chunk. -/
theorem removeOccGo_skip (p0 : Char) (prest : List Char) (l s : List Char) :
    removeOccGo p0 prest l.length (l ++ s) = removeOccGo p0 prest 0 s := by
  induction l with
  | nil => rfl
  | cons c ct ih => exact ih

/-- Removing occurrences strips a leading occurrence of the pattern. -/
theorem removeOccurrences_strip (pat s : List Char) (hne : pat ≠ []) :
    removeOccurrences pat (pat ++ s) = removeOccurrences pat s := by
  cases pat with
  | nil => exact absurd rfl hne
  | cons p0 prest =>
    rw [removeOccurrences, removeOccurrences,
      show (p0 :: prest) ++ s = p0 :: (prest ++ s) from rfl, removeOccGo]
    have hpre : (p0 :: prest).isPrefixOf (p0 :: (prest ++ s)) = true := by
      have := isPrefixOf_append_self (p0 :: prest) s
      rw [show (p0 :: prest) ++ s = p0 :: (prest ++ s) from rfl] at this
      exact this
    rw [if_pos hpre, removeOccGo_skip]

/-- Removing occurrences of an absent pattern is the identity. -/
theorem removeOccGo_of_not_contains (p0 : Char) (prest : List Char) :
    ∀ s, containsSeq (p0 :: prest) s = false → removeOccGo p0 prest 0 s = s := by
  intro s
  induction s with
  | nil => intro _; rfl
  | cons c ct ih =>
    intro h
    rw [containsSeq, Bool.or_eq_false_iff] at h
    rw [removeOccGo, if_neg (by simp [h.1]), ih h.2]

/-- String-replace model: a pattern that does not occur leaves the string
unchanged. -/
theorem removeOccurrences_of_not_contains (pat s : List Char)
    (h : containsSeq pat s = false) : removeOccurrences pat s = s := by
  cases pat with
  | nil => rfl
  | cons p0 prest => rw [removeOccurrences]; exact removeOccGo_of_not_contains p0 prest s h

/-- C8 counterexample: the relative filepath a//b does not contain the
slash-terminated root /data/ of the configuration, yet the roundtrip through
`filepath2path` and `path2filepath` returns a/b, not the original filepath,
because pathlib collapses the repeated slash. -/
theorem filepath_roundtrip_cex :
    containsSeq ("/data" ++ "/").data "a//b".data = false ∧
    path2filepath (filepath2path "a//b" "/data") "/data" = "a/b" ∧
    ("a/b" : String) ≠ "a//b" := ⟨rfl, rfl, by decide⟩

/-- C8 (amended): for a configuration whose root is a normalized path (at
least one component, each nonempty, not a dot, slash-free, no trailing
slash) and a normalized nonempty relative filepath whose text does not
contain the slash-terminated root, `path2filepath` after `filepath2path`
returns the filepath unchanged. -/
theorem filepath_roundtrip_clean (isAbs : Bool) (rcs cs : List (List Char))
    (hr : ∀ c ∈ rcs, c ≠ [] ∧ c ≠ ['.'] ∧ '/' ∉ c) (hrne : rcs ≠ [])
    (hc : ∀ c ∈ cs, c ≠ [] ∧ c ≠ ['.'] ∧ '/' ∉ c) (hcne : cs ≠ [])
    (hfree : containsSeq (((if isAbs then ['/'] else []) ++ intercalateSlash rcs) ++ ['/'])
        (intercalateSlash cs) = false) :
    path2filepathChars
        (filepath2pathChars (intercalateSlash cs)
          ((if isAbs then ['/'] else []) ++ intercalateSlash rcs))
        ((if isAbs then ['/'] else []) ++ intercalateSlash rcs)
      = intercalateSlash cs := by
  obtain ⟨chf, tf, hfp, hchf⟩ := intercalateSlash_head cs hcne hc
  obtain ⟨chr, tr, hrt, hchr⟩ := intercalateSlash_head rcs hrne hr
  have hfp_root : posixRoot (intercalateSlash cs) = [] := by
    rw [hfp]; exact posixRoot_cons_ne chf tf hchf
  have hfp_comp : pathComponents (intercalateSlash cs) = cs :=
    pathComponents_intercalate cs hcne hc
  have hroot_comp : pathComponents (intercalateSlash rcs) = rcs :=
    pathComponents_intercalate rcs hrne hr
  have hparse_fp : parsePyPath (intercalateSlash cs) = ⟨[], cs⟩ := by
    rw [parsePyPath, hfp_root, hfp_comp]
  have hlast : (intercalateSlash rcs).getLast? ≠ some '/' :=
    intercalateSlash_getLast rcs hrne hr
  have happend : intercalateSlash (rcs ++ cs)
      = intercalateSlash rcs ++ '/' :: intercalateSlash cs :=
    intercalateSlash_append rcs cs hrne hcne
  obtain ⟨r0, rrest, hrcs⟩ := List.exists_cons_of_ne_nil hrne
  obtain ⟨c0, crest, hcs0⟩ := List.exists_cons_of_ne_nil hcne
  have hparts_ne : rcs ++ cs ≠ [] := by rw [hrcs]; simp
  cases isAbs with
  | false =>
    simp only [Bool.false_eq_true, if_false, List.nil_append] at hfree ⊢
    have hroot0 : posixRoot (intercalateSlash rcs) = [] := by
      rw [hrt]; exact posixRoot_cons_ne chr tr hchr
    have hparse_root : parsePyPath (intercalateSlash rcs) = ⟨[], rcs⟩ := by
      rw [parsePyPath, hroot0, hroot_comp]
    have hshown : filepath2pathChars (intercalateSlash cs) (intercalateSlash rcs)
        = intercalateSlash rcs ++ '/' :: intercalateSlash cs := by
      rw [filepath2pathChars, hparse_root, hparse_fp, joinPyPath]
      simp only [ne_eq, not_true_eq_false, if_false]
      rw [showPyPath]
      obtain ⟨p0, prest, hp⟩ := List.exists_cons_of_ne_nil hparts_ne
      rw [hp, ← hp, happend]
      simp
    have hrne' : intercalateSlash rcs ≠ [] := by rw [hrt]; simp
    rw [path2filepathChars, hshown]
    simp only [ne_eq, hrne', not_false_eq_true, hlast, and_self, if_true]
    have hsplit : intercalateSlash rcs ++ '/' :: intercalateSlash cs
        = (intercalateSlash rcs ++ ['/']) ++ intercalateSlash cs := by simp
    rw [hsplit, removeOccurrences_strip _ _ (by simp),
      removeOccurrences_of_not_contains _ _ hfree]
  | true =>
    simp only [if_true, List.singleton_append] at hfree ⊢
    have hroot1 : posixRoot ('/' :: intercalateSlash rcs) = ['/'] := by
      rw [hrt]; exact posixRoot_slash_cons chr tr hchr
    have hparse_root : parsePyPath ('/' :: intercalateSlash rcs) = ⟨['/'], rcs⟩ := by
      rw [parsePyPath, hroot1, pathComponents_slash_cons, hroot_comp]
    have hshown : filepath2pathChars (intercalateSlash cs) ('/' :: intercalateSlash rcs)
        = ('/' :: intercalateSlash rcs) ++ '/' :: intercalateSlash cs := by
      rw [filepath2pathChars, hparse_root, hparse_fp, joinPyPath]
      simp only [ne_eq, not_true_eq_false, if_false]
      rw [showPyPath]
      obtain ⟨p0, prest, hp⟩ := List.exists_cons_of_ne_nil hparts_ne
      rw [hp, ← hp, happend]
      simp
    have hrne' : ('/' :: intercalateSlash rcs) ≠ [] := by simp
    have hlast' : ('/' :: intercalateSlash rcs).getLast? ≠ some '/' := by
      rw [show ('/' :: intercalateSlash rcs) = ['/'] ++ intercalateSlash rcs from rfl,
        List.getLast?_append_of_ne_nil ['/'] (by rw [hrt]; simp)]
      exact hlast
    rw [path2filepathChars, hshown]
    simp only [ne_eq, hrne', not_false_eq_true, hlast', and_self, if_true]
    have hsplit : ('/' :: intercalateSlash rcs) ++ '/' :: intercalateSlash cs
        = (('/' :: intercalateSlash rcs) ++ ['/']) ++ intercalateSlash cs := by simp
    rw [hsplit, removeOccurrences_strip _ _ (by simp),
      removeOccurrences_of_not_contains _ _ hfree]

/-- C8 witness: the roundtrip theorem applied to the absolute root /data and
the clean relative filepath 123/f. -/
theorem filepath_roundtrip_clean_w :
    (∀ c ∈ [['d', 'a', 't', 'a']], c ≠ [] ∧ c ≠ ['.'] ∧ '/' ∉ c) ∧
    ([['d', 'a', 't', 'a']] : List (List Char)) ≠ [] ∧
    (∀ c ∈ [['1', '2', '3'], ['f']], c ≠ [] ∧ c ≠ ['.'] ∧ '/' ∉ c) ∧
    ([['1', '2', '3'], ['f']] : List (List Char)) ≠ [] ∧
    containsSeq (((if true then ['/'] else []) ++ intercalateSlash [['d', 'a', 't', 'a']])
        ++ ['/']) (intercalateSlash [['1', '2', '3'], ['f']]) = false ∧
    path2filepathChars
        (filepath2pathChars (intercalateSlash [['1', '2', '3'], ['f']])
          ((if true then ['/'] else []) ++ intercalateSlash [['d', 'a', 't', 'a']]))
        ((if true then ['/'] else []) ++ intercalateSlash [['d', 'a', 't', 'a']])
      = intercalateSlash [['1', '2', '3'], ['f']] :=
  ⟨by decide, by decide, by decide, by decide, by decide,
   filepath_roundtrip_clean true [['d', 'a', 't', 'a']] [['1', '2', '3'], ['f']]
     (by decide) (by decide) (by decide) (by decide) (by decide)⟩

end Pims
